import Mathlib

/-!
Verification of the immense rule-expansion engine.

This file shallowly embeds the core of the immense procedural-geometry
library (`src/api/transforms.rs`, `src/rule.rs`, `src/mesh.rs`) in Lean 4
and proves the spec's claims about it.

Modelling conventions:
* `f32` arithmetic is embedded as exact rational arithmetic (`ℚ`); the
  claims about floating-point code are read "exactly, over exact
  arithmetic", as the spec itself allows ("within tolerance over floats").
* `nalgebra::Matrix4<f32>` becomes the 16-field structure `Mat4`;
  `Vertex = Matrix4x1<f32>` becomes `Vec4`.
* `f32::cos`/`f32::sin` are transcendental library functions, so the
  rotation constructors take the cosine and sine values themselves as
  parameters `c s : ℚ`; the Pythagorean identity `c^2 + s^2 = 1` is the
  hypothesis standing for "`c` and `s` are the cosine and sine of one
  angle", and negating the angle maps `(c, s)` to `(c, -s)`.
* Trait objects `Rc<dyn ToRule>` (producers) become names of an abstract
  type `P` interpreted by an environment `toRule : P → Rule P`; this is
  exactly the pointer indirection of the Rust code and lets rule graphs be
  self-referential.
* The `while` loop in `MeshIter::next` need not terminate on such graphs,
  so `next` is embedded fuel-indexed, returning `none` when the fuel runs
  out before the call would have returned.
-/

set_option autoImplicit false

namespace Immense

/-- Homogeneous 4-vector: `Vertex = nalgebra::Matrix4x1<f32>` (`mesh.rs`). -/
@[ext]
structure Vec4 where
  x : ℚ
  y : ℚ
  z : ℚ
  w : ℚ
  deriving DecidableEq, Repr

/-- `mesh.rs`: `vertex(x, y, z)` builds a homogeneous point with `w = 1`. -/
def vertex (x y z : ℚ) : Vec4 := ⟨x, y, z, 1⟩

/-- Row-major 4×4 matrix: `nalgebra::Matrix4<f32>`. Field `mIJ` is row `I`,
column `J`, matching the argument order of `Matrix4::new` in the source. -/
@[ext]
structure Mat4 where
  m00 : ℚ
  m01 : ℚ
  m02 : ℚ
  m03 : ℚ
  m10 : ℚ
  m11 : ℚ
  m12 : ℚ
  m13 : ℚ
  m20 : ℚ
  m21 : ℚ
  m22 : ℚ
  m23 : ℚ
  m30 : ℚ
  m31 : ℚ
  m32 : ℚ
  m33 : ℚ
  deriving DecidableEq, Repr

/-- Matrix product (`a * b` on `Matrix4`). -/
def Mat4.mul (a b : Mat4) : Mat4 where
  m00 := a.m00 * b.m00 + a.m01 * b.m10 + a.m02 * b.m20 + a.m03 * b.m30
  m01 := a.m00 * b.m01 + a.m01 * b.m11 + a.m02 * b.m21 + a.m03 * b.m31
  m02 := a.m00 * b.m02 + a.m01 * b.m12 + a.m02 * b.m22 + a.m03 * b.m32
  m03 := a.m00 * b.m03 + a.m01 * b.m13 + a.m02 * b.m23 + a.m03 * b.m33
  m10 := a.m10 * b.m00 + a.m11 * b.m10 + a.m12 * b.m20 + a.m13 * b.m30
  m11 := a.m10 * b.m01 + a.m11 * b.m11 + a.m12 * b.m21 + a.m13 * b.m31
  m12 := a.m10 * b.m02 + a.m11 * b.m12 + a.m12 * b.m22 + a.m13 * b.m32
  m13 := a.m10 * b.m03 + a.m11 * b.m13 + a.m12 * b.m23 + a.m13 * b.m33
  m20 := a.m20 * b.m00 + a.m21 * b.m10 + a.m22 * b.m20 + a.m23 * b.m30
  m21 := a.m20 * b.m01 + a.m21 * b.m11 + a.m22 * b.m21 + a.m23 * b.m31
  m22 := a.m20 * b.m02 + a.m21 * b.m12 + a.m22 * b.m22 + a.m23 * b.m32
  m23 := a.m20 * b.m03 + a.m21 * b.m13 + a.m22 * b.m23 + a.m23 * b.m33
  m30 := a.m30 * b.m00 + a.m31 * b.m10 + a.m32 * b.m20 + a.m33 * b.m30
  m31 := a.m30 * b.m01 + a.m31 * b.m11 + a.m32 * b.m21 + a.m33 * b.m31
  m32 := a.m30 * b.m02 + a.m31 * b.m12 + a.m32 * b.m22 + a.m33 * b.m32
  m33 := a.m30 * b.m03 + a.m31 * b.m13 + a.m32 * b.m23 + a.m33 * b.m33

/-- Matrix-vector product (`matrix * vertex`). -/
def Mat4.mulVec (a : Mat4) (v : Vec4) : Vec4 where
  x := a.m00 * v.x + a.m01 * v.y + a.m02 * v.z + a.m03 * v.w
  y := a.m10 * v.x + a.m11 * v.y + a.m12 * v.z + a.m13 * v.w
  z := a.m20 * v.x + a.m21 * v.y + a.m22 * v.z + a.m23 * v.w
  w := a.m30 * v.x + a.m31 * v.y + a.m32 * v.z + a.m33 * v.w

/-- `transforms.rs`: `fn identity() -> Matrix4<f32>`. -/
def Mat4.identity : Mat4 :=
  ⟨1, 0, 0, 0,
   0, 1, 0, 0,
   0, 0, 1, 0,
   0, 0, 0, 1⟩

theorem Mat4.mul_assoc (a b c : Mat4) : (a.mul b).mul c = a.mul (b.mul c) := by
  ext <;> simp only [Mat4.mul] <;> ring

theorem Mat4.identity_mul (a : Mat4) : Mat4.identity.mul a = a := by
  ext <;> simp only [Mat4.mul, Mat4.identity] <;> ring

theorem Mat4.mul_identity (a : Mat4) : a.mul Mat4.identity = a := by
  ext <;> simp only [Mat4.mul, Mat4.identity] <;> ring

theorem Mat4.identity_mulVec (v : Vec4) : Mat4.identity.mulVec v = v := by
  ext <;> simp only [Mat4.mulVec, Mat4.identity] <;> ring

theorem Mat4.mul_mulVec (a b : Mat4) (v : Vec4) :
    (a.mul b).mulVec v = a.mulVec (b.mulVec v) := by
  ext <;> simp only [Mat4.mul, Mat4.mulVec] <;> ring

/-- HSV color triple: `palette::Hsv` with exact rational components. -/
@[ext]
structure Hsv where
  hue : ℚ
  saturation : ℚ
  value : ℚ
  deriving DecidableEq, Repr

/-- RGB color triple: `palette::rgb::Rgb`. -/
@[ext]
structure Rgb where
  red : ℚ
  green : ℚ
  blue : ℚ
  deriving DecidableEq, Repr

/-- Standard HSV→RGB conversion, as implemented by `Rgb::from(Hsv)` in the
external palette crate (spec §1 places color-space conversion outside the
core). Needed only to state claims about resolved absolute colors. -/
def hsvToRgb (c : Hsv) : Rgb :=
  let chroma := c.value * c.saturation
  let h6 := c.hue / 60
  let hmod2 := h6 - 2 * ((⌊h6 / 2⌋ : ℤ) : ℚ)
  let second := chroma * (1 - |hmod2 - 1|)
  let m := c.value - chroma
  let rgb : ℚ × ℚ × ℚ :=
    if h6 < 1 then (chroma, second, 0)
    else if h6 < 2 then (second, chroma, 0)
    else if h6 < 3 then (0, chroma, second)
    else if h6 < 4 then (0, second, chroma)
    else if h6 < 5 then (second, 0, chroma)
    else (chroma, 0, second)
  ⟨rgb.1 + m, rgb.2.1 + m, rgb.2.2 + m⟩

/-- `transforms.rs`: `enum ColorTransform { Override(Hsv), Delta(Hsv) }`. -/
inductive ColorTransform where
  | override (color : Hsv)
  | delta (delta : Hsv)
  deriving DecidableEq, Repr

/-- `impl Default for ColorTransform`: the neutral delta
`Delta(Hsv::new(0.0, 1.0, 1.0))`. -/
def ColorTransform.default : ColorTransform := .delta ⟨0, 1, 1⟩

/-- `ColorTransform::cons`. -/
def ColorTransform.cons : ColorTransform → ColorTransform → ColorTransform
  | _, .override color => .override color
  | .override color, .delta d =>
      .override ⟨color.hue + d.hue, color.saturation * d.saturation,
                 color.value * d.value⟩
  | .delta a, .delta b =>
      .delta ⟨a.hue + b.hue, a.saturation * b.saturation, a.value * b.value⟩

/-- `ColorTransform::color`: fold onto the base color `Hsv::new(0.0, 1.0, 1.0)`. -/
def ColorTransform.color : ColorTransform → Hsv
  | .override c => c
  | .delta d =>
      let base : Hsv := ⟨0, 1, 1⟩
      ⟨base.hue + d.hue, base.saturation * d.saturation, base.value * d.value⟩

/-- `transforms.rs`: `struct Transform { spatial, color }`. -/
@[ext]
structure Transform where
  spatial : Mat4
  color : ColorTransform
  deriving DecidableEq, Repr

/-- An ergonomic alias for `Transform` (`pub type Tf = Transform`). -/
abbrev Tf := Transform

/-- `impl Default for Transform`. -/
def Transform.default : Transform := ⟨Mat4.identity, ColorTransform.default⟩

/-- `Transform::cons`. -/
def Transform.cons (a b : Transform) : Transform :=
  ⟨a.spatial.mul b.spatial, a.color.cons b.color⟩

/-- `Transform::apply_to`. -/
def Transform.applyTo (t : Transform) (v : Vec4) : Vec4 := t.spatial.mulVec v

/-- The HSV color computed inside `Transform::get_color`:
`ColorTransform::Override(Hsv::new(0.0, 1.0, 1.0)).cons(self.color).color()`. -/
def Transform.getColorHsv (t : Transform) : Hsv :=
  ((ColorTransform.override ⟨0, 1, 1⟩).cons t.color).color

/-- `Transform::get_color`: `Rgb::from(...)` of the folded HSV color. -/
def Transform.getColor (t : Transform) : Rgb := hsvToRgb t.getColorHsv

/-- `Translate::by` (named `by'` because `by` is reserved in Lean). -/
def Translate.by' (x y z : ℚ) : Mat4 :=
  ⟨1, 0, 0, x,
   0, 1, 0, y,
   0, 0, 1, z,
   0, 0, 0, 1⟩

/-- `Translate::x`. -/
def Translate.x (x : ℚ) : Mat4 := Translate.by' x 0 0

/-- `Translate::y`. -/
def Translate.y (y : ℚ) : Mat4 := Translate.by' 0 y 0

/-- `Translate::z`. -/
def Translate.z (z : ℚ) : Mat4 := Translate.by' 0 0 z

/-- `Scale::by` (named `by'` because `by` is reserved in Lean). -/
def Scale.by' (x y z : ℚ) : Mat4 :=
  ⟨x, 0, 0, 0,
   0, y, 0, 0,
   0, 0, z, 0,
   0, 0, 0, 1⟩

/-- `Scale::all`. -/
def Scale.all (factor : ℚ) : Mat4 := Scale.by' factor factor factor

/-- `Rotate::x`: pivot-translate by `(0, ½, ½)`, rotate, translate back.
`c` and `s` stand for the cosine and sine of the angle in radians
(`x.to_radians()`); negating the angle maps `(c, s)` to `(c, -s)`. -/
def Rotate.x (c s : ℚ) : Mat4 :=
  ((Translate.by' 0 (1/2) (1/2)).mul
    ⟨1, 0, 0, 0,
     0, c, -s, 0,
     0, s, c, 0,
     0, 0, 0, 1⟩).mul (Translate.by' 0 (-(1/2)) (-(1/2)))

/-- `Rotate::y`, with cosine/sine parameters as in `Rotate.x`. -/
def Rotate.y (c s : ℚ) : Mat4 :=
  ((Translate.by' (1/2) 0 (1/2)).mul
    ⟨c, 0, s, 0,
     0, 1, 0, 0,
     -s, 0, c, 0,
     0, 0, 0, 1⟩).mul (Translate.by' (-(1/2)) 0 (-(1/2)))

/-- `Rotate::z`, with cosine/sine parameters as in `Rotate.x`. -/
def Rotate.z (c s : ℚ) : Mat4 :=
  ((Translate.by' (1/2) (1/2) 0).mul
    ⟨c, -s, 0, 0,
     s, c, 0, 0,
     0, 0, 1, 0,
     0, 0, 0, 1⟩).mul (Translate.by' (-(1/2)) (-(1/2)) 0)

/-- `Transform::t`. -/
def Transform.t (x y z : ℚ) : Transform :=
  { Transform.default with spatial := Translate.by' x y z }

/-- `Transform::tx`. -/
def Transform.tx (x : ℚ) : Transform :=
  { Transform.default with spatial := Translate.x x }

/-- `Transform::ty`. -/
def Transform.ty (y : ℚ) : Transform :=
  { Transform.default with spatial := Translate.y y }

/-- `Transform::tz`. -/
def Transform.tz (z : ℚ) : Transform :=
  { Transform.default with spatial := Translate.z z }

/-- `Transform::s`. -/
def Transform.s (factor : ℚ) : Transform :=
  { Transform.default with spatial := Scale.all factor }

/-- `Transform::sby`. -/
def Transform.sby (x y z : ℚ) : Transform :=
  { Transform.default with spatial := Scale.by' x y z }

/-- `Transform::rx`, with cosine/sine parameters as in `Rotate.x`. -/
def Transform.rx (c s : ℚ) : Transform :=
  { Transform.default with spatial := Rotate.x c s }

/-- `Transform::ry`. -/
def Transform.ry (c s : ℚ) : Transform :=
  { Transform.default with spatial := Rotate.y c s }

/-- `Transform::rz`. -/
def Transform.rz (c s : ℚ) : Transform :=
  { Transform.default with spatial := Rotate.z c s }

/-- `Transform::color` (named `color'`: the structure projection already
takes the name `color`). -/
def Transform.color' (color : Hsv) : Transform :=
  { Transform.default with color := ColorTransform.override color }

/-- `Transform::hue`. -/
def Transform.hue (delta : ℚ) : Transform :=
  { Transform.default with color := ColorTransform.delta ⟨delta, 1, 1⟩ }

/-- `Transform::saturation`. -/
def Transform.saturation (factor : ℚ) : Transform :=
  { Transform.default with color := ColorTransform.delta ⟨0, factor, 1⟩ }

/-- `Transform::value`. -/
def Transform.value (factor : ℚ) : Transform :=
  { Transform.default with color := ColorTransform.delta ⟨0, 1, factor⟩ }

theorem ColorTransform.color_cons_assoc (a b c : ColorTransform) :
    (a.cons b).cons c = a.cons (b.cons c) := by
  cases a <;> cases b <;> cases c <;>
    simp only [ColorTransform.cons, ColorTransform.override.injEq,
      ColorTransform.delta.injEq, Hsv.mk.injEq] <;>
    refine ⟨by ring, by ring, by ring⟩

theorem ColorTransform.color_default_cons (c : ColorTransform) :
    ColorTransform.default.cons c = c := by
  cases c with
  | override x => rfl
  | delta d =>
      simp only [ColorTransform.default, ColorTransform.cons,
        ColorTransform.delta.injEq]
      ext <;> ring

theorem ColorTransform.color_cons_default (c : ColorTransform) :
    c.cons ColorTransform.default = c := by
  cases c with
  | override x =>
      simp only [ColorTransform.default, ColorTransform.cons,
        ColorTransform.override.injEq]
      ext <;> ring
  | delta d =>
      simp only [ColorTransform.default, ColorTransform.cons,
        ColorTransform.delta.injEq]
      ext <;> ring

theorem Transform.cons_assoc (a b c : Transform) :
    (a.cons b).cons c = a.cons (b.cons c) := by
  simp only [Transform.cons, Mat4.mul_assoc, ColorTransform.color_cons_assoc]

theorem Transform.default_cons (t : Transform) :
    Transform.default.cons t = t := by
  simp only [Transform.cons, Transform.default, Mat4.identity_mul,
    ColorTransform.color_default_cons]

theorem Transform.cons_default (t : Transform) :
    t.cons Transform.default = t := by
  simp only [Transform.cons, Transform.default, Mat4.mul_identity,
    ColorTransform.color_cons_default]

theorem Transform.default_applyTo (v : Vec4) :
    Transform.default.applyTo v = v := by
  simp only [Transform.applyTo, Transform.default, Mat4.identity_mulVec]

theorem Transform.cons_applyTo (a b : Transform) (v : Vec4) :
    (a.cons b).applyTo v = a.applyTo (b.applyTo v) := by
  simp only [Transform.applyTo, Transform.cons, Mat4.mul_mulVec]

/-- `Transform::cross`: the nested `for parent in parents { for child in
&children { emitted.push(parent.cons(*child)) } }` loop. -/
def Transform.cross : List Transform → List Transform → List Transform
  | [], _ => []
  | p :: ps, children =>
      children.map (fun c => p.cons c) ++ Transform.cross ps children

/-- `Transform::coalesce`: fold `cons` over the source transforms starting
from the given default (or `Transform::default()`). -/
def Transform.coalesce (dflt : Option Transform) (source : List Transform) :
    Transform :=
  source.foldl (fun a b => a.cons b) (dflt.getD Transform.default)

/-- `Transform::stack`: `coalesce(Some(self), iter::repeat(self).take(n))`. -/
def Transform.stack (t : Transform) (n : Nat) : Transform :=
  Transform.coalesce (some t) (List.replicate n t)

/-- `t` self-composed `k` times (`k = 0` is the identity); reference
definition for the replication claim. -/
def Transform.selfCompose (t : Transform) : Nat → Transform
  | 0 => Transform.default
  | k + 1 => (t.selfCompose k).cons t

theorem Transform.stack_succ (t : Transform) (n : Nat) :
    t.stack (n + 1) = (t.stack n).cons t := by
  simp only [Transform.stack, Transform.coalesce, Option.getD_some,
    List.replicate_succ', List.foldl_append, List.foldl_cons, List.foldl_nil]

theorem Transform.stack_eq_selfCompose (t : Transform) (n : Nat) :
    t.stack n = t.selfCompose (n + 1) := by
  induction n with
  | zero =>
      simp only [Transform.stack, Transform.coalesce, List.replicate,
        List.foldl_nil, Option.getD_some, Transform.selfCompose,
        Transform.default_cons]
  | succ n ih =>
      rw [Transform.stack_succ, ih]
      rfl

/-- `transforms.rs`: `enum TransformArgument { Single, Many }`. -/
inductive TransformArgument where
  | single (t : Transform)
  | many (ts : List Transform)
  deriving DecidableEq, Repr

/-- `impl Into<Vec<Transform>> for TransformArgument`. -/
def TransformArgument.intoTransforms : TransformArgument → List Transform
  | .single t => [t]
  | .many ts => ts

/-- `impl From<Transform> for TransformArgument`. -/
def TransformArgument.ofTransform (t : Transform) : TransformArgument :=
  .single t

/-- `impl From<Vec<Transform>> for TransformArgument`: sequential
composition into a single transform. -/
def TransformArgument.ofTransforms (ts : List Transform) : TransformArgument :=
  .single (Transform.coalesce none ts)

/-- `impl From<Vec<TransformArgument>> for TransformArgument`: iterated
cross product starting from the one-element set `[Transform::default()]`. -/
def TransformArgument.ofArguments (args : List TransformArgument) :
    TransformArgument :=
  .many (args.foldl (fun em arg => Transform.cross em arg.intoTransforms)
    [Transform.default])

/-- `transforms.rs`: `struct Replicate { n, source }`. -/
structure Replicate where
  n : Nat
  source : TransformArgument

/-- `impl Into<TransformArgument> for Replicate`: each source transform
becomes the `n` branches `transform.stack(i)` for `i ∈ 0..n`. -/
def Replicate.intoArgument : Replicate → TransformArgument
  | ⟨n, .single t⟩ => .many ((List.range n).map (fun i => t.stack i))
  | ⟨n, .many ts⟩ =>
      .many (ts.foldl
        (fun em t => em ++ (List.range n).map (fun i => t.stack i)) [])

theorem Transform.cross_length (A B : List Transform) :
    (Transform.cross A B).length = A.length * B.length := by
  induction A with
  | nil => simp [Transform.cross]
  | cons p ps ih =>
      simp only [Transform.cross, List.length_append, List.length_map,
        List.length_cons, ih]
      ring

theorem Transform.cross_getElem (A B : List Transform) (i j : Nat)
    (hi : i < A.length) (hj : j < B.length)
    (hk : i * B.length + j < (Transform.cross A B).length) :
    (Transform.cross A B).get ⟨i * B.length + j, hk⟩ =
      (A.get ⟨i, hi⟩).cons (B.get ⟨j, hj⟩) := by
  induction A generalizing i with
  | nil => exact absurd hi (Nat.not_lt_zero i)
  | cons p ps ih =>
      cases i with
      | zero =>
          simp only [List.get_eq_getElem, Transform.cross, Nat.zero_mul,
            Nat.zero_add]
          rw [List.getElem_append_left (by simpa using hj)]
          simp
      | succ i =>
          have hi' : i < ps.length := Nat.lt_of_succ_lt_succ hi
          have hmul : (i + 1) * B.length = i * B.length + B.length :=
            Nat.succ_mul i B.length
          have hlen : B.length ≤ (i + 1) * B.length + j := by omega
          have hk' : i * B.length + j < (Transform.cross ps B).length := by
            have hcl : (Transform.cross (p :: ps) B).length =
                B.length + (Transform.cross ps B).length := by
              simp [Transform.cross]
            rw [hcl] at hk
            omega
          have hidx : (i + 1) * B.length + j -
              (List.map (fun c => p.cons c) B).length = i * B.length + j := by
            simp only [List.length_map]
            omega
          simp only [List.get_eq_getElem, Transform.cross]
          rw [List.getElem_append_right (by simpa using hlen)]
          simp only [hidx]
          have := ih i hi' hk'
          simpa using this

/-- `mesh.rs`: `struct Mesh { vertices, normals, faces }`; faces are lists
of 1-based vertex indices. -/
structure Mesh where
  vertices : List Vec4
  normals : Option (List Vec4)
  faces : List (List Nat)
  deriving DecidableEq, Repr

/-- `mesh.rs`: the `CUBE_MESH` table, verbatim. -/
def cubeMesh : Mesh :=
  ⟨[vertex (-(1/2)) (1/2) (1/2),
    vertex (-(1/2)) (-(1/2)) (1/2),
    vertex (1/2) (-(1/2)) (1/2),
    vertex (1/2) (1/2) (1/2),
    vertex (-(1/2)) (1/2) (-(1/2)),
    vertex (-(1/2)) (-(1/2)) (-(1/2)),
    vertex (1/2) (-(1/2)) (-(1/2)),
    vertex (1/2) (1/2) (-(1/2))],
   none,
   [[1, 2, 3, 4],
    [8, 7, 6, 5],
    [4, 3, 7, 8],
    [5, 1, 4, 8],
    [5, 6, 2, 1],
    [2, 6, 7, 3]]⟩

/-- The `ICO_SPHERE` table is produced by the external genmesh crate
(`sphere_of_resolution(0)`); spec §1 places concrete primitive geometry
outside the core and no claim depends on its entries, so the table is left
empty here. -/
def icoSphereMesh : Mesh := ⟨[], none, []⟩

/-- `mesh.rs`: `enum PrimitiveMesh { Cube, IcoSphere }`. -/
inductive PrimitiveMesh where
  | cube
  | icoSphere
  deriving DecidableEq, Repr

/-- `PrimitiveMesh::mesh`. -/
def PrimitiveMesh.mesh : PrimitiveMesh → Mesh
  | .cube => cubeMesh
  | .icoSphere => icoSphereMesh

/-- `rule.rs`: `enum OutputMeshSource { Primitive, Dynamic }`. -/
inductive OutputMeshSource where
  | primitive (p : PrimitiveMesh)
  | dynamic (m : Mesh)
  deriving DecidableEq, Repr

/-- `rule.rs`: `struct OutputMesh { transform, source }`. -/
structure OutputMesh where
  transform : Option Transform
  source : OutputMeshSource
  deriving DecidableEq, Repr

/-- `OutputMesh::mesh`: dispatch to the shared source mesh. -/
def OutputMesh.mesh (o : OutputMesh) : Mesh :=
  match o.source with
  | .primitive p => p.mesh
  | .dynamic m => m

/-- `OutputMesh::color`: `self.transform.unwrap_or(Transform::default()).get_color()`. -/
def OutputMesh.color (o : OutputMesh) : Rgb :=
  (o.transform.getD Transform.default).getColor

/-- `OutputMesh::vertices`: each source vertex mapped through
`self.transform.map(|t| t.apply_to(*v)).unwrap_or(*v)`. -/
def OutputMesh.verticesList (o : OutputMesh) : List Vec4 :=
  o.mesh.vertices.map (fun v => (o.transform.map (fun t => t.applyTo v)).getD v)

/-- `OutputMesh::normals`: like `vertices`, when the mesh defines normals. -/
def OutputMesh.normalsList (o : OutputMesh) : Option (List Vec4) :=
  o.mesh.normals.map (fun ns =>
    ns.map (fun v => (o.transform.map (fun t => t.applyTo v)).getD v))

/-- `OutputMesh::faces`: the source mesh's face lists, untouched. -/
def OutputMesh.facesList (o : OutputMesh) : List (List Nat) := o.mesh.faces

/-- `rule.rs`: `enum RuleInternal { Mesh, Invocations(Rc<dyn ToRule>) }`.
A producer (`Rc<dyn ToRule>`) is embedded as a name of an abstract type
`P`; an environment `toRule : P → Rule P` interprets each name, exactly as
the pointed-to object's `to_rule()` does. The indirection lets rule graphs
be self-referential, as in the Rust code. -/
inductive RuleInternal (P : Type) where
  | mesh (source : OutputMeshSource)
  | invocations (producer : P)
  deriving DecidableEq, Repr

/-- `rule.rs`: `Rule.invocations`, a list of `(Option<Transform>, RuleInternal)`. -/
abbrev Rule (P : Type) := List (Option Transform × RuleInternal P)

/-- The worklist held by `MeshIter` (`rules: Vec<...>`), with the list head
as the top of the LIFO stack. -/
abbrev WorkList (P : Type) := List (Option Transform × RuleInternal P)

/-- The transform-pairing `match` in `MeshIter::next`. -/
def consOption : Option Transform → Option Transform → Option Transform
  | none, none => none
  | some parent, none => some parent
  | some parent, some child => some (parent.cons child)
  | none, some child => some child

/-- The push loop of `MeshIter::next`: every invocation entry of the
expanded rule is pushed, in order, onto the stack (so the last entry ends
on top: list-reverse onto the head). -/
def MeshIter.pushInvocations {P : Type} (t : Option Transform) (r : Rule P)
    (rest : WorkList P) : WorkList P :=
  (r.map (fun e => (consOption t e.1, e.2))).reverse ++ rest

/-- `MeshIter::next`, fuel-indexed: the Rust `while` loop pops entries
until a mesh reference is found. `none` means the fuel ran out before the
loop would have returned; `some (none, wl)` is the Rust `None` (iterator
exhausted); `some (some m, wl)` is an emitted mesh. Producers are
re-interpreted through `toRule` on every visit — nothing is cached. -/
def MeshIter.next {P : Type} (toRule : P → Rule P) :
    Nat → WorkList P → Option (Option OutputMesh × WorkList P)
  | 0, _ => none
  | _ + 1, [] => some (none, [])
  | _ + 1, (t, .mesh m) :: rest => some (some ⟨t, m⟩, rest)
  | fuel + 1, (t, .invocations p) :: rest =>
      MeshIter.next toRule fuel (MeshIter.pushInvocations t (toRule p) rest)

/-- `Rule::generate`: the iterator starts from the single worklist entry
`(None, Invocations(Rc::new(self)))`, where `root` names the root rule's
producer. -/
def Rule.generate {P : Type} (root : P) : WorkList P :=
  [(none, RuleInternal.invocations root)]

/-- Repeatedly call `MeshIter.next` (each call with the given fuel) to
collect the first `k` output meshes; `none` if the fuel ever runs out or
the iterator is exhausted first. -/
def MeshIter.takeFuel {P : Type} (toRule : P → Rule P) (fuel : Nat) :
    Nat → WorkList P → Option (List OutputMesh)
  | 0, _ => some []
  | k + 1, wl =>
      match MeshIter.next toRule fuel wl with
      | some (some m, wl') =>
          (MeshIter.takeFuel toRule fuel k wl').map (fun l => m :: l)
      | _ => none

/-- Observable content of a worklist entry: an absent accumulated transform
reads as `Transform.default`, which is how `OutputMesh` treats it at
emission time (`unwrap_or(Transform::default())`). -/
def entryObs {P : Type} (e : Option Transform × RuleInternal P) :
    Transform × RuleInternal P :=
  (e.1.getD Transform.default, e.2)

/-- Observable content of an emitted mesh record. -/
def meshObs (m : OutputMesh) : Transform × OutputMeshSource :=
  (m.transform.getD Transform.default, m.source)

/-- Observable content of one `MeshIter.next` result. -/
def resultObs {P : Type} :
    Option (Option OutputMesh × WorkList P) →
      Option (Option (Transform × OutputMeshSource) ×
        List (Transform × RuleInternal P)) :=
  Option.map (fun r => (r.1.map meshObs, r.2.map entryObs))

theorem consOption_obs (a b : Option Transform) :
    (consOption a b).getD Transform.default =
      (a.getD Transform.default).cons (b.getD Transform.default) := by
  cases a <;> cases b <;>
    simp [consOption, Transform.default_cons, Transform.cons_default]

theorem MeshIter.pushInvocations_obs {P : Type} (t₁ t₂ : Option Transform)
    (h : t₁.getD Transform.default = t₂.getD Transform.default) (r : Rule P)
    (rest₁ rest₂ : WorkList P)
    (hrest : rest₁.map entryObs = rest₂.map entryObs) :
    (MeshIter.pushInvocations t₁ r rest₁).map entryObs =
      (MeshIter.pushInvocations t₂ r rest₂).map entryObs := by
  simp only [MeshIter.pushInvocations, List.map_append, List.map_reverse,
    List.map_map, hrest]
  have hfun : (entryObs ∘ fun e : Option Transform × RuleInternal P =>
        (consOption t₁ e.1, e.2)) =
      (entryObs ∘ fun e => (consOption t₂ e.1, e.2)) := by
    funext e
    simp [Function.comp, entryObs, consOption_obs, h]
  rw [hfun]

theorem MeshIter.next_obs {P : Type} (toRule : P → Rule P) :
    ∀ (fuel : Nat) (wl₁ wl₂ : WorkList P),
      wl₁.map entryObs = wl₂.map entryObs →
      resultObs (MeshIter.next toRule fuel wl₁) =
        resultObs (MeshIter.next toRule fuel wl₂) := by
  intro fuel
  induction fuel with
  | zero => intro wl₁ wl₂ _; rfl
  | succ fuel ih =>
      intro wl₁ wl₂ h
      cases wl₁ with
      | nil =>
          cases wl₂ with
          | nil => rfl
          | cons e₂ rest₂ => simp at h
      | cons e₁ rest₁ =>
          cases wl₂ with
          | nil => simp at h
          | cons e₂ rest₂ =>
              obtain ⟨he, hrest⟩ : entryObs e₁ = entryObs e₂ ∧
                  rest₁.map entryObs = rest₂.map entryObs := by simpa using h
              obtain ⟨t₁, n₁⟩ := e₁
              obtain ⟨t₂, n₂⟩ := e₂
              have ht : t₁.getD Transform.default = t₂.getD Transform.default :=
                congrArg Prod.fst he
              have hn : n₁ = n₂ := congrArg Prod.snd he
              subst hn
              cases n₁ with
              | mesh m =>
                  simp [MeshIter.next, resultObs, meshObs, ht, hrest]
              | invocations p =>
                  exact ih _ _
                    (MeshIter.pushInvocations_obs t₁ t₂ ht (toRule p)
                      rest₁ rest₂ hrest)

/-- Claim C1: each call to `MeshIter::next` pops entries from the LIFO
worklist until one is a mesh reference; a popped mesh reference is emitted
as an `OutputMesh` carrying the accumulated transform unchanged; a popped
producer entry is expanded by interpreting the producer afresh, and for
each invocation entry `(local_transform, child)` of the resulting rule an
entry `(compose(accumulated, local_transform), child)` is pushed onto the
worklist; `next` returns `None` exactly when the worklist is empty. -/
theorem claim_C1 (P : Type) (toRule : P → Rule P) :
    (∀ fuel : Nat,
      MeshIter.next toRule (fuel + 1) ([] : WorkList P) = some (none, []))
    ∧ (∀ (fuel : Nat) (t : Option Transform) (m : OutputMeshSource)
        (rest : WorkList P),
        MeshIter.next toRule (fuel + 1) ((t, RuleInternal.mesh m) :: rest) =
          some (some ⟨t, m⟩, rest))
    ∧ (∀ (fuel : Nat) (t : Option Transform) (p : P) (rest : WorkList P),
        MeshIter.next toRule (fuel + 1)
            ((t, RuleInternal.invocations p) :: rest) =
          MeshIter.next toRule fuel
            (((toRule p).map (fun e => (consOption t e.1, e.2))).reverse ++
              rest))
    ∧ (∀ (fuel : Nat) (wl wl' : WorkList P),
        MeshIter.next toRule fuel wl = some (none, wl') → wl' = []) := by
  refine ⟨fun _ => rfl, fun _ _ _ _ => rfl, fun _ _ _ _ => rfl, ?_⟩
  intro fuel
  induction fuel with
  | zero => intro wl wl' h; exact absurd h (by simp [MeshIter.next])
  | succ fuel ih =>
      intro wl wl' h
      cases wl with
      | nil =>
          simp only [MeshIter.next, Option.some.injEq, Prod.mk.injEq,
            true_and] at h
          exact h.symm
      | cons e rest =>
          obtain ⟨t, n⟩ := e
          cases n with
          | mesh m => simp [MeshIter.next] at h
          | invocations p => exact ih _ wl' h

/-- Witness for C1 at a concrete graph: the empty environment over `Unit`;
a `next` call on the empty worklist signals exhaustion with an (indeed
empty) remaining worklist. -/
theorem claim_C1_witness :
    MeshIter.next (fun _ : Unit => ([] : Rule Unit)) 1 [] = some (none, [])
    ∧ ([] : WorkList Unit) = [] := by
  have h := claim_C1 Unit (fun _ => [])
  exact ⟨h.1 0, h.2.2.2 1 [] [] (h.1 0)⟩

/-- Claim C2: `Replicate::n(n, t)` converts to exactly `n` branches, the
`k`-th (1-based) being `t` self-composed `k` times, with no identity
branch; concretely `Replicate::n(3, Tf::ty(1.0))` gives three branches
with y-translations 1, 2, 3. -/
theorem claim_C2 (t : Transform) (n : Nat) :
    Replicate.intoArgument ⟨n, .single t⟩ =
      .many ((List.range n).map (fun i => t.selfCompose (i + 1)))
    ∧ (Replicate.intoArgument ⟨n, .single t⟩).intoTransforms.length = n
    ∧ (Replicate.intoArgument ⟨3, .single (Transform.ty 1)⟩).intoTransforms.map
        (fun tr => tr.spatial.m13) = [1, 2, 3] := by
  refine ⟨?_, ?_, ?_⟩
  · simp only [Replicate.intoArgument, Transform.stack_eq_selfCompose]
  · simp [Replicate.intoArgument, TransformArgument.intoTransforms]
  · have h3 : List.range 3 = [0, 1, 2] := rfl
    simp only [Replicate.intoArgument, TransformArgument.intoTransforms, h3,
      List.map_cons, List.map_nil]
    norm_num [Transform.stack, Transform.coalesce, List.replicate,
      List.foldl_cons, List.foldl_nil, Option.getD_some, Transform.cons,
      Transform.ty, Transform.default, Translate.y, Translate.by', Mat4.mul]

/-- Claim C3: `Transform::cross` produces `|A| * |B|` compositions in
nested iteration order, element `i * |B| + j` being `A_i.cons B_j`; two
36-branch sets combine into exactly 1296 transforms. -/
theorem claim_C3 (A B : List Transform) :
    (Transform.cross A B).length = A.length * B.length
    ∧ (∀ (i j : Nat) (hi : i < A.length) (hj : j < B.length)
        (hk : i * B.length + j < (Transform.cross A B).length),
        (Transform.cross A B).get ⟨i * B.length + j, hk⟩ =
          (A.get ⟨i, hi⟩).cons (B.get ⟨j, hj⟩))
    ∧ (A.length = 36 → B.length = 36 →
        (Transform.cross A B).length = 1296) := by
  refine ⟨Transform.cross_length A B,
    fun i j hi hj hk => Transform.cross_getElem A B i j hi hj hk, ?_⟩
  intro hA hB
  rw [Transform.cross_length, hA, hB]

/-- Witness for C3 at concrete inputs: element `0 * 1 + 0` of the cross of
two singletons, and the 1296-length instance on two 36-element sets. -/
theorem claim_C3_witness :
    (Transform.cross [Transform.default] [Transform.tx 1]).get
        ⟨0, by simp [Transform.cross]⟩ =
      Transform.default.cons (Transform.tx 1)
    ∧ (Transform.cross (List.replicate 36 Transform.default)
        (List.replicate 36 Transform.default)).length = 1296 := by
  constructor
  · have h := (claim_C3 [Transform.default] [Transform.tx 1]).2.1 0 0
      (by simp) (by simp) (by simp [Transform.cross])
    simpa using h
  · exact (claim_C3 _ _).2.2 (by simp) (by simp)

/-- Claim C4: an inner color override wins unconditionally over any outer
color operator, so a leaf with `Override(x)` under any ancestor resolves to
exactly `x` (e.g. `Override(red)` under `Delta(hue + 10)`). -/
theorem claim_C4 :
    (∀ (c : ColorTransform) (x : Hsv),
        c.cons (ColorTransform.override x) = ColorTransform.override x)
    ∧ (∀ (anc : Transform) (x : Hsv),
        (anc.cons (Transform.color' x)).getColorHsv = x)
    ∧ ((Transform.hue 10).cons
        (Transform.color' ⟨0, 1, 1⟩)).getColorHsv = ⟨0, 1, 1⟩ := by
  have hcons : ∀ (c : ColorTransform) (x : Hsv),
      c.cons (ColorTransform.override x) = ColorTransform.override x := by
    intro c x
    cases c <;> rfl
  refine ⟨hcons, fun anc x => ?_, ?_⟩
  · simp only [Transform.getColorHsv, Transform.cons, Transform.color']
    rw [hcons anc.color x, hcons]
    rfl
  · decide

/-- Claim C5: transform composition is associative, in the spatial matrix
and the color operator alike, hence the two ways of composing three
transforms act identically on every point (exactly, over ℚ). -/
theorem claim_C5 (A B C : Transform) :
    (A.cons B).cons C = A.cons (B.cons C)
    ∧ ∀ p : Vec4,
        ((A.cons B).cons C).applyTo p = (A.cons (B.cons C)).applyTo p :=
  ⟨Transform.cons_assoc A B C,
   fun p => by rw [Transform.cons_assoc]⟩

theorem Mat4.conj_mul_conj (T₁ T₂ A B : Mat4)
    (hT : T₂.mul T₁ = Mat4.identity) :
    ((T₁.mul A).mul T₂).mul ((T₁.mul B).mul T₂) =
      (T₁.mul (A.mul B)).mul T₂ := by
  simp only [Mat4.mul_assoc]
  rw [← Mat4.mul_assoc T₂ T₁ (B.mul T₂), hT, Mat4.identity_mul]

/-- The unconjugated x-rotation block of `Rotate::x`. -/
def Rotate.xmat (c s : ℚ) : Mat4 :=
  ⟨1, 0, 0, 0,
   0, c, -s, 0,
   0, s, c, 0,
   0, 0, 0, 1⟩

/-- The unconjugated y-rotation block of `Rotate::y`. -/
def Rotate.ymat (c s : ℚ) : Mat4 :=
  ⟨c, 0, s, 0,
   0, 1, 0, 0,
   -s, 0, c, 0,
   0, 0, 0, 1⟩

/-- The unconjugated z-rotation block of `Rotate::z`. -/
def Rotate.zmat (c s : ℚ) : Mat4 :=
  ⟨c, -s, 0, 0,
   s, c, 0, 0,
   0, 0, 1, 0,
   0, 0, 0, 1⟩

theorem Rotate.x_eq (c s : ℚ) :
    Rotate.x c s = ((Translate.by' 0 (1/2) (1/2)).mul (Rotate.xmat c s)).mul
      (Translate.by' 0 (-(1/2)) (-(1/2))) := rfl

theorem Rotate.y_eq (c s : ℚ) :
    Rotate.y c s = ((Translate.by' (1/2) 0 (1/2)).mul (Rotate.ymat c s)).mul
      (Translate.by' (-(1/2)) 0 (-(1/2))) := rfl

theorem Rotate.z_eq (c s : ℚ) :
    Rotate.z c s = ((Translate.by' (1/2) (1/2) 0).mul (Rotate.zmat c s)).mul
      (Translate.by' (-(1/2)) (-(1/2)) 0) := rfl

theorem Translate.mul_neg_self (x y z : ℚ) :
    (Translate.by' (-x) (-y) (-z)).mul (Translate.by' x y z) =
      Mat4.identity := by
  ext <;> simp only [Mat4.mul, Mat4.identity, Translate.by'] <;> ring

theorem Translate.self_mul_neg (x y z : ℚ) :
    (Translate.by' x y z).mul (Translate.by' (-x) (-y) (-z)) =
      Mat4.identity := by
  ext <;> simp only [Mat4.mul, Mat4.identity, Translate.by'] <;> ring

theorem Rotate.xmat_inv (c s : ℚ) (h : c ^ 2 + s ^ 2 = 1) :
    (Rotate.xmat c (-s)).mul (Rotate.xmat c s) = Mat4.identity := by
  ext <;> simp only [Rotate.xmat, Mat4.mul, Mat4.identity] <;>
    first
      | ring1
      | linear_combination h

theorem Rotate.ymat_inv (c s : ℚ) (h : c ^ 2 + s ^ 2 = 1) :
    (Rotate.ymat c (-s)).mul (Rotate.ymat c s) = Mat4.identity := by
  ext <;> simp only [Rotate.ymat, Mat4.mul, Mat4.identity] <;>
    first
      | ring1
      | linear_combination h

theorem Rotate.zmat_inv (c s : ℚ) (h : c ^ 2 + s ^ 2 = 1) :
    (Rotate.zmat c (-s)).mul (Rotate.zmat c s) = Mat4.identity := by
  ext <;> simp only [Rotate.zmat, Mat4.mul, Mat4.identity] <;>
    first
      | ring1
      | linear_combination h

theorem Rotate.x_inv (c s : ℚ) (h : c ^ 2 + s ^ 2 = 1) :
    (Rotate.x c (-s)).mul (Rotate.x c s) = Mat4.identity := by
  rw [Rotate.x_eq, Rotate.x_eq,
    Mat4.conj_mul_conj _ _ _ _ (by simpa using Translate.mul_neg_self 0 (1/2) (1/2)),
    Rotate.xmat_inv c s h, Mat4.mul_identity,
    (by simpa using Translate.self_mul_neg 0 (1/2) (1/2) :
      (Translate.by' 0 (1/2) (1/2)).mul (Translate.by' 0 (-(1/2)) (-(1/2))) =
        Mat4.identity)]

theorem Rotate.y_inv (c s : ℚ) (h : c ^ 2 + s ^ 2 = 1) :
    (Rotate.y c (-s)).mul (Rotate.y c s) = Mat4.identity := by
  rw [Rotate.y_eq, Rotate.y_eq,
    Mat4.conj_mul_conj _ _ _ _ (by simpa using Translate.mul_neg_self (1/2) 0 (1/2)),
    Rotate.ymat_inv c s h, Mat4.mul_identity,
    (by simpa using Translate.self_mul_neg (1/2) 0 (1/2) :
      (Translate.by' (1/2) 0 (1/2)).mul (Translate.by' (-(1/2)) 0 (-(1/2))) =
        Mat4.identity)]

theorem Rotate.z_inv (c s : ℚ) (h : c ^ 2 + s ^ 2 = 1) :
    (Rotate.z c (-s)).mul (Rotate.z c s) = Mat4.identity := by
  rw [Rotate.z_eq, Rotate.z_eq,
    Mat4.conj_mul_conj _ _ _ _ (by simpa using Translate.mul_neg_self (1/2) (1/2) 0),
    Rotate.zmat_inv c s h, Mat4.mul_identity,
    (by simpa using Translate.self_mul_neg (1/2) (1/2) 0 :
      (Translate.by' (1/2) (1/2) 0).mul (Translate.by' (-(1/2)) (-(1/2)) 0) =
        Mat4.identity)]

/-- Claim C6: for each axis, composing the rotation constructor at `-θ`
with the one at `θ` (cosine/sine pair `(c, s)` becoming `(c, -s)`) is the
identity on every point, pivot-translation conjugation included; likewise
for the two applications in sequence. -/
theorem claim_C6 (c s : ℚ) (p : Vec4) (h : c ^ 2 + s ^ 2 = 1) :
    ((Transform.rx c (-s)).cons (Transform.rx c s)).applyTo p = p
    ∧ ((Transform.ry c (-s)).cons (Transform.ry c s)).applyTo p = p
    ∧ ((Transform.rz c (-s)).cons (Transform.rz c s)).applyTo p = p
    ∧ (Transform.rx c (-s)).applyTo ((Transform.rx c s).applyTo p) = p := by
  have hx : ((Transform.rx c (-s)).cons (Transform.rx c s)).applyTo p = p := by
    show ((Rotate.x c (-s)).mul (Rotate.x c s)).mulVec p = p
    rw [Rotate.x_inv c s h, Mat4.identity_mulVec]
  refine ⟨hx, ?_, ?_, ?_⟩
  · show ((Rotate.y c (-s)).mul (Rotate.y c s)).mulVec p = p
    rw [Rotate.y_inv c s h, Mat4.identity_mulVec]
  · show ((Rotate.z c (-s)).mul (Rotate.z c s)).mulVec p = p
    rw [Rotate.z_inv c s h, Mat4.identity_mulVec]
  · rw [← Transform.cons_applyTo]
    exact hx

/-- Witness for C6 at the concrete cosine/sine pair `(3/5, 4/5)` and the
point `(1, 2, 3, 1)`. -/
theorem claim_C6_witness :
    ((3 : ℚ)/5) ^ 2 + ((4 : ℚ)/5) ^ 2 = 1
    ∧ ((Transform.rx (3/5) (-(4/5))).cons
        (Transform.rx (3/5) (4/5))).applyTo ⟨1, 2, 3, 1⟩ = ⟨1, 2, 3, 1⟩ :=
  ⟨by norm_num,
   (claim_C6 (3/5) (4/5) ⟨1, 2, 3, 1⟩ (by norm_num)).1⟩

/-- Counterexample to C7: the code's base color is `Hsv::new(0.0, 1.0, 1.0)`
— hue 0, full saturation, full value — so the identity/default transform
resolves to RGB `(1, 0, 0)`, pure red, which is not white `(1, 1, 1)`. -/
theorem claim_C7_counterexample :
    Transform.default.getColor = (⟨1, 0, 0⟩ : Rgb)
    ∧ (⟨1, 0, 0⟩ : Rgb) ≠ (⟨1, 1, 1⟩ : Rgb) := by
  constructor
  · show hsvToRgb Transform.default.getColorHsv = _
    have hhsv : Transform.default.getColorHsv = ⟨0, 1, 1⟩ := by
      simp only [Transform.getColorHsv, Transform.default,
        ColorTransform.default, ColorTransform.cons, ColorTransform.color]
      ext <;> norm_num
    rw [hhsv]
    simp only [hsvToRgb]
    norm_num
  · intro hcontra
    exact absurd (congrArg Rgb.green hcontra) (by norm_num)

/-- Claim C7 (amended): `get_color` folds the transform's color operator
onto the fixed base color `Hsv(0, 1, 1)` — the neutral element for delta
folding, but fully-saturated red rather than white — so the
identity/default transform resolves to `Hsv(0, 1, 1)`, i.e. RGB red
`(1, 0, 0)`, and a pure delta resolves to exactly its own components. -/
theorem claim_C7 :
    (∀ t : Transform, t.getColorHsv =
        ((ColorTransform.override ⟨0, 1, 1⟩).cons t.color).color)
    ∧ (∀ d : Hsv,
        (Transform.mk Mat4.identity (ColorTransform.delta d)).getColorHsv = d)
    ∧ Transform.default.getColorHsv = ⟨0, 1, 1⟩
    ∧ Transform.default.getColor = ⟨1, 0, 0⟩ := by
  refine ⟨fun t => rfl, fun d => ?_, ?_, claim_C7_counterexample.1⟩
  · simp only [Transform.getColorHsv, ColorTransform.cons,
      ColorTransform.color]
    ext <;> norm_num
  · simp only [Transform.getColorHsv, Transform.default,
      ColorTransform.default, ColorTransform.cons, ColorTransform.color]
    ext <;> norm_num

/-- A self-referential, always-recursing rule graph over the one producer
name `()`: interpreting the producer yields a rule that re-invokes the
producer itself under the transform `a` and also emits a mesh. There is no
depth limit, so the graph's unfolding is infinite. -/
def recEnv (a : Transform) (m : OutputMeshSource) : Unit → Rule Unit :=
  fun _ => [(some a, .invocations ()), (none, .mesh m)]

theorem recEnv_step (a : Transform) (m : OutputMeshSource)
    (t : Option Transform) :
    MeshIter.next (recEnv a m) 2 [(t, .invocations ())] =
      some (some ⟨t, m⟩, [(consOption t (some a), .invocations ())]) := by
  cases t <;> rfl

theorem recEnv_take (a : Transform) (m : OutputMeshSource) :
    ∀ (k : Nat) (t : Option Transform), ∃ l : List OutputMesh,
      MeshIter.takeFuel (recEnv a m) 2 k [(t, .invocations ())] = some l
      ∧ l.length = k := by
  intro k
  induction k with
  | zero => exact fun t => ⟨[], rfl, rfl⟩
  | succ k ih =>
      intro t
      obtain ⟨l, hl, hlen⟩ := ih (consOption t (some a))
      refine ⟨⟨t, m⟩ :: l, ?_, by simp [hlen]⟩
      simp [MeshIter.takeFuel, recEnv_step, hl]

/-- Claim C8: over the self-referential, always-recursing rule graph
`recEnv a m` (no depth limit; its unfolding is infinite), the lazy pull
traversal started by `generate` lets a consumer retrieve a prefix of any
finite length `k` of the output meshes, each `next` call spending only the
constant fuel 2 — i.e. finitely many pop/expand steps per mesh, never a
materialization of the whole graph. -/
theorem claim_C8 (a : Transform) (m : OutputMeshSource) (k : Nat) :
    ∃ l : List OutputMesh,
      MeshIter.takeFuel (recEnv a m) 2 k (Rule.generate ()) = some l
      ∧ l.length = k :=
  recEnv_take a m k none

/-- Claim C9: `generate` starts from the single worklist entry
`(None, root)`; and `None` is observationally equivalent to carrying the
identity transform `Transform.default` — the traversal's results, vertex
application and color resolution agree either way. -/
theorem claim_C9 (P : Type) (toRule : P → Rule P) (root : P) :
    Rule.generate root = [(none, RuleInternal.invocations root)]
    ∧ (∀ fuel : Nat,
        resultObs (MeshIter.next toRule fuel (Rule.generate root)) =
          resultObs (MeshIter.next toRule fuel
            [(some Transform.default, RuleInternal.invocations root)]))
    ∧ (∀ (t : Option Transform) (src : OutputMeshSource),
        OutputMesh.verticesList ⟨t, src⟩ =
          (OutputMesh.mesh ⟨t, src⟩).vertices.map
            (fun v => (t.getD Transform.default).applyTo v))
    ∧ (∀ (t : Option Transform) (src : OutputMeshSource),
        OutputMesh.color ⟨t, src⟩ = (t.getD Transform.default).getColor) := by
  refine ⟨rfl, fun fuel => ?_, fun t src => ?_, fun t src => rfl⟩
  · exact MeshIter.next_obs toRule fuel _ _ (by simp [Rule.generate, entryObs])
  · cases t with
    | none => simp [OutputMesh.verticesList, Transform.default_applyTo]
    | some tt => simp [OutputMesh.verticesList]

/-- Claim C10: `faces` of an emitted `OutputMesh` is exactly the face-index
table of the underlying shared source mesh, independent of the accumulated
transform; in particular every instance of the unit cube carries the
cube's six 1-based face lists unchanged. -/
theorem claim_C10 :
    (∀ o : OutputMesh, o.facesList = o.mesh.faces)
    ∧ (∀ (t₁ t₂ : Option Transform) (src : OutputMeshSource),
        OutputMesh.facesList ⟨t₁, src⟩ = OutputMesh.facesList ⟨t₂, src⟩)
    ∧ (∀ t : Option Transform,
        OutputMesh.facesList ⟨t, .primitive .cube⟩ =
          [[1, 2, 3, 4], [8, 7, 6, 5], [4, 3, 7, 8],
           [5, 1, 4, 8], [5, 6, 2, 1], [2, 6, 7, 3]]) :=
  ⟨fun _ => rfl, fun _ _ _ => rfl, fun _ => rfl⟩

end Immense
